import Mathlib

/-!
# Verification of the websocket broadcast core of `mediapipe-arm-tracking.py`

The Python source runs a camera loop on the main thread, which hands each
extracted arm-data record to `queue_message` (a `queue.Queue.put`), and a
websocket server thread whose event loop runs one `handler` coroutine per
accepted connection plus a single `broadcast_messages` coroutine.

We embed that core as an explicit state machine:

* `S` carries the mutable state of an `ArmTracker` (`message_queue`,
  `connected_clients`), the environment fact of which clients' sends raise
  (`failing`), a per-connection program counter for the `handler` coroutine
  (`pc`), and ghost observables: the messages each client has received
  (`recv`), the samples drained from the queue in order (`log`), and the
  samples enqueued in order (`enq`).
* `stepA` is one atomic scheduler step of the event loop: a handler advancing
  past registration / the welcome send / the `wait_closed` return, the camera
  thread enqueueing a sample, or one full iteration of the broadcaster's
  10 ms tick (`broadcastTick`), whose inner drain loop is `broadcastDrain`.
* `extract_arm_data` mirrors the landmark-extraction function, with landmark
  coordinates embedded as rationals.
* A finer-grained model (`passStep`) exposes the individual
  `get_nowait`/`put` operations of one drain pass so that enqueues racing a
  drain can be interleaved between them.
-/

namespace ArmTracking

/-- A message delivered to a client over its websocket: either the welcome
handshake record `{"status": "connected"}` sent by `handler`, or one broadcast
sample.  Sample payloads are abstracted by natural numbers (the JSON encoding
is injective on distinct records, so payload identity is all that matters). -/
inductive Msg where
  | welcome : Msg
  | sample : ℕ → Msg
  deriving DecidableEq

/-- The state of the tracker's server core together with ghost observables.

* `queue`   — `self.message_queue`, FIFO front-to-back;
* `clients` — `self.connected_clients` (a Python `set` of websockets,
  modelled as a `Finset` of connection identifiers);
* `failing` — the set of clients whose `ws.send` raises (environment fact,
  never mutated by the program);
* `pc c`    — progress of client `c`'s `handler` coroutine: `0` before
  `handler` runs, `1` after `connected_clients.add(websocket)` (source line
  44), `2` after the welcome `websocket.send` (line 48), `3` after the
  `finally` block's `connected_clients.remove(websocket)` (line 52);
* `recv c`  — ghost: messages client `c` has received, in order;
* `log`     — ghost: samples removed from the queue by `get_nowait`, in order;
* `enq`     — ghost: samples passed to `queue_message`, in order. -/
structure S where
  queue : List ℕ
  clients : Finset ℕ
  failing : Finset ℕ
  pc : ℕ → ℕ
  recv : ℕ → List Msg
  log : List ℕ
  enq : List ℕ

/-- Effect on the ghost `recv` of `await asyncio.gather(*tasks)` for one
message `m` (source lines 66–67): every connected client whose send succeeds
receives `m`; a connected client whose send raises receives nothing. -/
def sendAll (m : ℕ) (cl f : Finset ℕ) (recv : ℕ → List Msg) : ℕ → List Msg :=
  fun c => if c ∈ cl ∧ c ∉ f then recv c ++ [Msg.sample m] else recv c

/-- Result of one run of the broadcaster's inner drain loop. -/
structure DrainResult where
  queue : List ℕ
  recv : ℕ → List Msg
  log : List ℕ

/-- The inner `while not self.message_queue.empty():` loop of
`broadcast_messages` (source lines 62–67), for one tick.  Each iteration
removes the head message with `get_nowait` (appending it to the ghost `log`);
if `connected_clients` is empty the message is simply dropped; otherwise the
message is sent to every connected client via `asyncio.gather`.  With
`asyncio.gather`'s default behaviour, the sends to non-failing clients are
scheduled and complete, but if any send raises, the exception propagates to
the `except` clause on line 68 and the remaining iterations of the loop are
abandoned (the unread messages stay in the queue). -/
def broadcastDrain (cl f : Finset ℕ) : List ℕ → (ℕ → List Msg) → List ℕ → DrainResult
  | [], recv, log => ⟨[], recv, log⟩
  | m :: rest, recv, log =>
    if cl = ∅ then
      broadcastDrain cl f rest recv (log ++ [m])
    else if (cl ∩ f).Nonempty then
      ⟨rest, sendAll m cl f recv, log ++ [m]⟩
    else
      broadcastDrain cl f rest (sendAll m cl f recv) (log ++ [m])

/-- `queue_message` (source lines 85–87): `self.message_queue.put(message)`.
A `queue.Queue` with no `maxsize` is unbounded, so `put` appends at the tail
and returns; the ghost `enq` records the enqueue order. -/
def queue_message (m : ℕ) (s : S) : S :=
  { s with queue := s.queue ++ [m], enq := s.enq ++ [m] }

/-- One atomic scheduler step of the system. -/
inductive Act where
  | register : ℕ → Act
  | welcome : ℕ → Act
  | close : ℕ → Act
  | enqueue : ℕ → Act
  | tick : Act
  deriving DecidableEq

/-- The transition function.  Guards on `pc` make each handler step occur at
most once and in source order; a step whose guard fails is a no-op (it is not
schedulable).

* `register c` — `handler` runs `self.connected_clients.add(websocket)`
  (line 44), before any send;
* `welcome c` — `await websocket.send(json.dumps({"status": "connected"}))`
  (line 48): if the send raises (`c ∈ failing`) the `finally` block removes
  the websocket from the set (line 52); otherwise the client receives the
  welcome message;
* `close c` — `await websocket.wait_closed()` returns (line 50) and the
  `finally` block removes the websocket (line 52);
* `enqueue m` — the camera thread calls `queue_message`;
* `tick` — one iteration of `broadcast_messages`' outer `while True` loop:
  the inner drain loop runs to completion or to its first exception; the
  broadcaster never mutates `connected_clients`. -/
def stepA (a : Act) (s : S) : S :=
  match a with
  | .register c =>
    if s.pc c = 0 then
      { s with clients := insert c s.clients,
               pc := fun x => if x = c then 1 else s.pc x }
    else s
  | .welcome c =>
    if s.pc c = 1 then
      if c ∈ s.failing then
        { s with clients := s.clients.erase c,
                 pc := fun x => if x = c then 3 else s.pc x }
      else
        { s with recv := fun x => if x = c then s.recv c ++ [Msg.welcome] else s.recv x,
                 pc := fun x => if x = c then 2 else s.pc x }
    else s
  | .close c =>
    if s.pc c = 2 then
      { s with clients := s.clients.erase c,
               pc := fun x => if x = c then 3 else s.pc x }
    else s
  | .enqueue m => queue_message m s
  | .tick =>
    let d := broadcastDrain s.clients s.failing s.queue s.recv s.log
    { s with queue := d.queue, recv := d.recv, log := d.log }

/-- Run a schedule of atomic steps from a state. -/
def run (acts : List Act) (s : S) : S :=
  acts.foldl (fun t a => stepA a t) s

/-- The samples among a client's received messages, in order (the stream seen
after filtering out the handshake record). -/
def samplesOf : List Msg → List ℕ
  | [] => []
  | Msg.welcome :: rest => samplesOf rest
  | Msg.sample n :: rest => n :: samplesOf rest

/-- The initial state of a fresh `ArmTracker` with a given environment of
failing clients: empty queue, no connected clients, no history. -/
def s0 (f : Finset ℕ) : S :=
  { queue := [], clients := ∅, failing := f, pc := fun _ => 0,
    recv := fun _ => [], log := [], enq := [] }

/-- A state in which one client `c` is fully connected (registered and past
the welcome handshake) and nothing has been enqueued or drained yet. -/
def sInit (f : Finset ℕ) (c : ℕ) : S :=
  { queue := [], clients := {c}, failing := f,
    pc := fun x => if x = c then 2 else 0,
    recv := fun x => if x = c then [Msg.welcome] else [], log := [], enq := [] }

/-! ## The client registry operations

`connected_clients` is a Python `set`.  `handler` mutates it with `set.add`
(line 44) and `set.remove` (line 52); the camera loop reads its size with
`len` (line 131). -/

/-- Errors a registry operation can raise.  Python's `set.remove` raises
`KeyError` when the element is absent. -/
inductive PyError where
  | keyError : PyError
  deriving DecidableEq

/-- `self.connected_clients.add(websocket)` (source line 44). -/
def registry_add (c : ℕ) (r : Finset ℕ) : Finset ℕ :=
  insert c r

/-- `self.connected_clients.remove(websocket)` (source line 52).  Python's
`set.remove` removes a present element and raises `KeyError` on an absent
one (unlike `set.discard`). -/
def registry_remove (c : ℕ) (r : Finset ℕ) : Except PyError (Finset ℕ) :=
  if c ∈ r then .ok (r.erase c) else .error .keyError

/-- `len(self.connected_clients)` (source lines 45, 53, 131). -/
def connectedClientCount (r : Finset ℕ) : ℕ :=
  r.card

/-- Register a batch of connections, one `registry_add` each. -/
def addAll (ks : List ℕ) (r : Finset ℕ) : Finset ℕ :=
  ks.foldl (fun t c => registry_add c t) r

/-- Deregister a batch of connections, one `registry_remove` each; the first
`KeyError` aborts the batch. -/
def removeAll : List ℕ → Finset ℕ → Except PyError (Finset ℕ)
  | [], r => .ok r
  | m :: ms, r =>
    match registry_remove m r with
    | .ok r' => removeAll ms r'
    | .error e => .error e

/-! ## A fine-grained model of one drain pass racing the producer

The broadcaster's inner loop alternates `queue.empty()` / `get_nowait()`
(each individually atomic — `queue.Queue` is thread-safe) with awaited
sends, so the camera thread's `put` calls can interleave between any two of
them.  `passStep` exposes this granularity: the state is the pair
(current queue contents, samples drained so far this pass). -/

/-- An atomic event during one drain pass: the broadcaster removing the head
message with `get_nowait` (a no-op when the queue is empty, matching the
`empty()` guard), or the producer thread appending a message with `put`. -/
inductive PassAct where
  | drainStep : PassAct
  | put : ℕ → PassAct
  deriving DecidableEq

/-- Effect of one atomic event on (queue, drained-so-far). -/
def passStep (a : PassAct) (st : List ℕ × List ℕ) : List ℕ × List ℕ :=
  match a, st with
  | .drainStep, ([], out) => ([], out)
  | .drainStep, (m :: rest, out) => (rest, out ++ [m])
  | .put m, (q, out) => (q ++ [m], out)

/-- Run an interleaving of drain steps and producer puts. -/
def runPass (acts : List PassAct) (st : List ℕ × List ℕ) : List ℕ × List ℕ :=
  acts.foldl (fun t a => passStep a t) st

/-- The messages the producer enqueued during the pass, in order. -/
def putsOf : List PassAct → List ℕ
  | [] => []
  | .drainStep :: rest => putsOf rest
  | .put m :: rest => m :: putsOf rest

/-! ## The landmark-extraction function

`extract_arm_data` (source lines 172–227).  MediaPipe landmark coordinates
and visibilities are embedded as rationals; the function only copies them
and compares visibilities against `0.5`, so this is faithful to the
control flow. -/

/-- One MediaPipe pose landmark: 3D position and a visibility confidence. -/
structure Landmark where
  x : ℚ
  y : ℚ
  z : ℚ
  visibility : ℚ
  deriving DecidableEq

/-- The record built for one arm: the shoulder and wrist landmarks, each
copied field-by-field (source lines 195–208 and 212–225). -/
structure ArmJoints where
  shoulder : Landmark
  wrist : Landmark
  deriving DecidableEq

/-- The record returned by `extract_arm_data` (source lines 183–187). -/
structure ArmData where
  timestamp : ℚ
  left_arm : Option ArmJoints
  right_arm : Option ArmJoints
  deriving DecidableEq

/-- `mp.solutions.pose.PoseLandmark.LEFT_SHOULDER.value`. -/
def LEFT_SHOULDER : ℕ := 11

/-- `mp.solutions.pose.PoseLandmark.RIGHT_SHOULDER.value`. -/
def RIGHT_SHOULDER : ℕ := 12

/-- `mp.solutions.pose.PoseLandmark.LEFT_WRIST.value`. -/
def LEFT_WRIST : ℕ := 15

/-- `mp.solutions.pose.PoseLandmark.RIGHT_WRIST.value`. -/
def RIGHT_WRIST : ℕ := 16

/-- The part of a MediaPipe pose result that `extract_arm_data` reads:
`results.pose_world_landmarks` is `None` or an indexed family of landmarks. -/
structure PoseResults where
  pose_world_landmarks : Option (ℕ → Landmark)

/-- `extract_arm_data` (source lines 172–227).  `timestamp` stands for the
`time.time()` value read on line 174.  The record starts with both arms
`None` (lines 183–187); when world landmarks are present, an arm's record is
filled in exactly when both its shoulder's and its wrist's visibility exceed
`0.5` (lines 194, 211). -/
def extract_arm_data (timestamp : ℚ) (results : PoseResults) : ArmData :=
  match results.pose_world_landmarks with
  | none => { timestamp := timestamp, left_arm := none, right_arm := none }
  | some landmarks =>
    { timestamp := timestamp,
      left_arm :=
        if (landmarks LEFT_SHOULDER).visibility > 1/2 ∧
            (landmarks LEFT_WRIST).visibility > 1/2 then
          some { shoulder := landmarks LEFT_SHOULDER, wrist := landmarks LEFT_WRIST }
        else none,
      right_arm :=
        if (landmarks RIGHT_SHOULDER).visibility > 1/2 ∧
            (landmarks RIGHT_WRIST).visibility > 1/2 then
          some { shoulder := landmarks RIGHT_SHOULDER, wrist := landmarks RIGHT_WRIST }
        else none }

/-! ## Basic lemmas -/

lemma samplesOf_append (l₁ l₂ : List Msg) :
    samplesOf (l₁ ++ l₂) = samplesOf l₁ ++ samplesOf l₂ := by
  induction l₁ with
  | nil => rfl
  | cons m rest ih => cases m <;> simp [samplesOf, ih]

lemma run_nil (s : S) : run [] s = s := rfl

lemma run_cons (a : Act) (acts : List Act) (s : S) :
    run (a :: acts) s = run acts (stepA a s) := rfl

lemma stepA_tick_clients (s : S) : (stepA Act.tick s).clients = s.clients := rfl

lemma stepA_failing (a : Act) (s : S) : (stepA a s).failing = s.failing := by
  cases a <;> simp [stepA, queue_message] <;> split <;> try split
  all_goals rfl

/-- Master lemma about one run of the drain loop: the ghost `recv` of any
client and the ghost `log` only grow; the samples appended to the log,
followed by the remaining queue, are exactly the original queue; the samples
a client receives during the pass are a sublist of the samples drained; and a
connected, non-failing client receives every drained sample. -/
lemma drain_master (cl f : Finset ℕ) (q : List ℕ) :
    ∀ (recv : ℕ → List Msg) (log : List ℕ) (c : ℕ),
    ∃ dr dl,
      (broadcastDrain cl f q recv log).recv c = recv c ++ dr ∧
      (broadcastDrain cl f q recv log).log = log ++ dl ∧
      dl ++ (broadcastDrain cl f q recv log).queue = q ∧
      List.Sublist (samplesOf dr) dl ∧
      (c ∈ cl → c ∉ f → samplesOf dr = dl) := by
  induction q with
  | nil =>
    intro recv log c
    exact ⟨[], [], by simp [broadcastDrain], by simp [broadcastDrain],
      by simp [broadcastDrain], List.Sublist.refl _, fun _ _ => rfl⟩
  | cons m rest ih =>
    intro recv log c
    by_cases hcl : cl = ∅
    · obtain ⟨dr, dl, h1, h2, h3, h4, h5⟩ := ih recv (log ++ [m]) c
      refine ⟨dr, m :: dl, ?_, ?_, ?_, ?_, ?_⟩
      · simpa [broadcastDrain, hcl] using h1
      · simp only [broadcastDrain, if_pos hcl]
        rw [h2]
        simp
      · simp only [broadcastDrain, if_pos hcl, List.cons_append]
        rw [h3]
      · exact h4.cons m
      · intro hc
        exact absurd (hcl ▸ hc) (Finset.not_mem_empty c)
    · by_cases habort : (cl ∩ f).Nonempty
      · refine ⟨if c ∈ cl ∧ c ∉ f then [Msg.sample m] else [], [m], ?_, ?_, ?_, ?_, ?_⟩
        · simp only [broadcastDrain, if_neg hcl, if_pos habort, sendAll]
          split <;> simp
        · simp [broadcastDrain, if_neg hcl, if_pos habort]
        · simp [broadcastDrain, if_neg hcl, if_pos habort]
        · split <;> simp [samplesOf]
        · intro hc hf
          simp [hc, hf, samplesOf]
      · obtain ⟨dr, dl, h1, h2, h3, h4, h5⟩ := ih (sendAll m cl f recv) (log ++ [m]) c
        refine ⟨(if c ∈ cl ∧ c ∉ f then [Msg.sample m] else []) ++ dr, m :: dl, ?_, ?_, ?_, ?_, ?_⟩
        · simp only [broadcastDrain, if_neg hcl, if_neg habort]
          rw [h1]
          simp only [sendAll]
          split <;> simp
        · simp only [broadcastDrain, if_neg hcl, if_neg habort]
          rw [h2]
          simp
        · simp only [broadcastDrain, if_neg hcl, if_neg habort, List.cons_append]
          rw [h3]
        · rw [samplesOf_append]
          have hh : List.Sublist (samplesOf (if c ∈ cl ∧ c ∉ f then [Msg.sample m] else [])) [m] := by
            split <;> simp [samplesOf]
          simpa using hh.append h4
        · intro hc hf
          rw [samplesOf_append, if_pos ⟨hc, hf⟩, h5 hc hf]
          simp [samplesOf]

/-- One scheduler step only appends to a client's `recv` and to the drain
`log`, and the samples appended to `recv` are a sublist of those appended to
the log. -/
lemma step_recv_log (a : Act) (s : S) (c : ℕ) :
    ∃ dr dl, (stepA a s).recv c = s.recv c ++ dr ∧ (stepA a s).log = s.log ++ dl ∧
      List.Sublist (samplesOf dr) dl := by
  cases a with
  | register c' =>
    refine ⟨[], [], ?_, ?_, by simp [samplesOf]⟩ <;> simp [stepA] <;> split <;> rfl
  | welcome c' =>
    by_cases h : s.pc c' = 1
    · by_cases hf : c' ∈ s.failing
      · exact ⟨[], [], by simp [stepA, h, hf], by simp [stepA, h, hf], by simp [samplesOf]⟩
      · refine ⟨if c = c' then [Msg.welcome] else [], [], ?_, ?_, ?_⟩
        · simp only [stepA, if_pos h, if_neg hf]
          split <;> rename_i hcc <;> simp [hcc]
        · simp [stepA, h, hf]
        · split <;> simp [samplesOf]
    · exact ⟨[], [], by simp [stepA, h], by simp [stepA, h], by simp [samplesOf]⟩
  | close c' =>
    refine ⟨[], [], ?_, ?_, by simp [samplesOf]⟩ <;> simp [stepA] <;> split <;> rfl
  | enqueue m =>
    exact ⟨[], [], by simp [stepA, queue_message], by simp [stepA, queue_message],
      by simp [samplesOf]⟩
  | tick =>
    obtain ⟨dr, dl, h1, h2, _, h4, _⟩ := drain_master s.clients s.failing s.queue s.recv s.log c
    exact ⟨dr, dl, h1, h2, h4⟩

/-- A connected, non-failing client stays connected through any step other
than its own disconnect. -/
lemma step_mem_clients (a : Act) (s : S) (c : ℕ) (hc : c ∈ s.clients)
    (hf : c ∉ s.failing) (hne : a ≠ Act.close c) : c ∈ (stepA a s).clients := by
  cases a with
  | register c' =>
    simp only [stepA]
    split
    · exact Finset.mem_insert_of_mem hc
    · exact hc
  | welcome c' =>
    by_cases h : s.pc c' = 1
    · by_cases hff : c' ∈ s.failing
      · have hcc : c ≠ c' := fun he => hf (he ▸ hff)
        simp only [stepA, if_pos h, if_pos hff]
        exact Finset.mem_erase.mpr ⟨hcc, hc⟩
      · simpa [stepA, h, hff] using hc
    · simpa [stepA, h] using hc
  | close c' =>
    have hcc : c ≠ c' := fun he => hne (by rw [he])
    simp only [stepA]
    split
    · exact Finset.mem_erase.mpr ⟨hcc, hc⟩
    · exact hc
  | enqueue m => exact hc
  | tick => exact hc

/-- For a connected, non-failing client that does not disconnect at this
step, `recv` grows by exactly the samples appended to the drain log. -/
lemma step_recv_log_eq (a : Act) (s : S) (c : ℕ) (hc : c ∈ s.clients)
    (hf : c ∉ s.failing) (hne : a ≠ Act.close c) :
    ∃ dr dl, (stepA a s).recv c = s.recv c ++ dr ∧ (stepA a s).log = s.log ++ dl ∧
      samplesOf dr = dl := by
  cases a with
  | register c' =>
    refine ⟨[], [], ?_, ?_, rfl⟩ <;> simp [stepA] <;> split <;> rfl
  | welcome c' =>
    by_cases h : s.pc c' = 1
    · by_cases hff : c' ∈ s.failing
      · exact ⟨[], [], by simp [stepA, h, hff], by simp [stepA, h, hff], rfl⟩
      · refine ⟨if c = c' then [Msg.welcome] else [], [], ?_, ?_, ?_⟩
        · simp only [stepA, if_pos h, if_neg hff]
          split <;> rename_i hcc <;> simp [hcc]
        · simp [stepA, h, hff]
        · split <;> rfl
    · exact ⟨[], [], by simp [stepA, h], by simp [stepA, h], rfl⟩
  | close c' =>
    refine ⟨[], [], ?_, ?_, rfl⟩ <;> simp [stepA] <;> split <;> rfl
  | enqueue m =>
    exact ⟨[], [], by simp [stepA, queue_message], by simp [stepA, queue_message], rfl⟩
  | tick =>
    obtain ⟨dr, dl, h1, h2, _, _, h5⟩ := drain_master s.clients s.failing s.queue s.recv s.log c
    exact ⟨dr, dl, h1, h2, h5 hc hf⟩

/-- One step preserves the hand-off invariant: the samples enqueued so far
are exactly the samples drained so far followed by the queue contents. -/
lemma step_enq_inv (a : Act) (s : S) (h : s.enq = s.log ++ s.queue) :
    (stepA a s).enq = (stepA a s).log ++ (stepA a s).queue := by
  cases a with
  | register c' => simp only [stepA]; split <;> exact h
  | welcome c' =>
    by_cases h1 : s.pc c' = 1
    · by_cases hff : c' ∈ s.failing
      · simpa [stepA, h1, hff] using h
      · simpa [stepA, h1, hff] using h
    · simpa [stepA, h1] using h
  | close c' => simp only [stepA]; split <;> exact h
  | enqueue m => simp [stepA, queue_message, h]
  | tick =>
    obtain ⟨_, dl, _, h2, h3, _, _⟩ := drain_master s.clients s.failing s.queue s.recv s.log 0
    show s.enq = (broadcastDrain s.clients s.failing s.queue s.recv s.log).log ++
      (broadcastDrain s.clients s.failing s.queue s.recv s.log).queue
    rw [h2, List.append_assoc, h3, h]

/-- Over any schedule, a client's `recv` and the drain `log` only grow, and
the samples the client gains are a sublist (same order, no duplication) of
the samples drained meanwhile. -/
lemma run_recv_log (acts : List Act) :
    ∀ (s : S) (c : ℕ),
    ∃ dr dl, (run acts s).recv c = s.recv c ++ dr ∧ (run acts s).log = s.log ++ dl ∧
      List.Sublist (samplesOf dr) dl := by
  induction acts with
  | nil => exact fun s c => ⟨[], [], by simp [run_nil], by simp [run_nil], by simp [samplesOf]⟩
  | cons a acts ih =>
    intro s c
    obtain ⟨dr₁, dl₁, g1, g2, g3⟩ := step_recv_log a s c
    obtain ⟨dr₂, dl₂, h1, h2, h3⟩ := ih (stepA a s) c
    refine ⟨dr₁ ++ dr₂, dl₁ ++ dl₂, ?_, ?_, ?_⟩
    · rw [run_cons, h1, g1, List.append_assoc]
    · rw [run_cons, h2, g2, List.append_assoc]
    · rw [samplesOf_append]
      exact g3.append h3

/-- A connected, non-failing client that never executes its disconnect step
stays connected over any schedule. -/
lemma run_mem_clients (acts : List Act) :
    ∀ (s : S) (c : ℕ), c ∈ s.clients → c ∉ s.failing → Act.close c ∉ acts →
    c ∈ (run acts s).clients := by
  induction acts with
  | nil => exact fun s c hc _ _ => hc
  | cons a acts ih =>
    intro s c hc hf hcl
    rw [run_cons]
    have hne : a ≠ Act.close c := fun he => hcl (he ▸ List.mem_cons_self a acts)
    have hf' : c ∉ (stepA a s).failing := by rw [stepA_failing]; exact hf
    exact ih (stepA a s) c (step_mem_clients a s c hc hf hne) hf'
      (fun hm => hcl (List.mem_cons_of_mem a hm))

/-- For a client that is connected, non-failing, and never disconnects during
the schedule, `recv` grows by exactly the samples drained meanwhile. -/
lemma run_recv_log_eq (acts : List Act) :
    ∀ (s : S) (c : ℕ), c ∈ s.clients → c ∉ s.failing → Act.close c ∉ acts →
    ∃ dr dl, (run acts s).recv c = s.recv c ++ dr ∧ (run acts s).log = s.log ++ dl ∧
      samplesOf dr = dl := by
  induction acts with
  | nil =>
    exact fun s c _ _ _ => ⟨[], [], by simp [run_nil], by simp [run_nil], rfl⟩
  | cons a acts ih =>
    intro s c hc hf hcl
    have hne : a ≠ Act.close c := fun he => hcl (he ▸ List.mem_cons_self a acts)
    have hf' : c ∉ (stepA a s).failing := by rw [stepA_failing]; exact hf
    obtain ⟨dr₁, dl₁, g1, g2, g3⟩ := step_recv_log_eq a s c hc hf hne
    obtain ⟨dr₂, dl₂, h1, h2, h3⟩ := ih (stepA a s) c (step_mem_clients a s c hc hf hne) hf'
      (fun hm => hcl (List.mem_cons_of_mem a hm))
    refine ⟨dr₁ ++ dr₂, dl₁ ++ dl₂, ?_, ?_, ?_⟩
    · rw [run_cons, h1, g1, List.append_assoc]
    · rw [run_cons, h2, g2, List.append_assoc]
    · rw [samplesOf_append, g3, h3]

/-- The hand-off invariant `enq = log ++ queue` is preserved by any
schedule. -/
lemma run_enq_inv (acts : List Act) :
    ∀ s : S, s.enq = s.log ++ s.queue →
    (run acts s).enq = (run acts s).log ++ (run acts s).queue := by
  induction acts with
  | nil => exact fun s h => h
  | cons a acts ih =>
    intro s h
    rw [run_cons]
    exact ih (stepA a s) (step_enq_inv a s h)

/-- Each tick shortens a non-empty queue (the drain loop always consumes at
least the head message) or empties it. -/
lemma drain_queue_length (cl f : Finset ℕ) (q : List ℕ) :
    ∀ (recv : ℕ → List Msg) (log : List ℕ),
    (broadcastDrain cl f q recv log).queue.length + 1 ≤ q.length ∨
      (broadcastDrain cl f q recv log).queue = [] := by
  induction q with
  | nil => intro recv log; right; simp [broadcastDrain]
  | cons m rest ih =>
    intro recv log
    by_cases hcl : cl = ∅
    · rcases ih recv (log ++ [m]) with h | h
      · left
        simp only [broadcastDrain, if_pos hcl]
        calc (broadcastDrain cl f rest recv (log ++ [m])).queue.length + 1
            ≤ rest.length := h
          _ ≤ (m :: rest).length := by simp
      · right; simpa [broadcastDrain, hcl] using h
    · by_cases habort : (cl ∩ f).Nonempty
      · left; simp [broadcastDrain, hcl, habort]
      · rcases ih (sendAll m cl f recv) (log ++ [m]) with h | h
        · left
          simp only [broadcastDrain, if_neg hcl, if_neg habort]
          calc (broadcastDrain cl f rest (sendAll m cl f recv) (log ++ [m])).queue.length + 1
              ≤ rest.length := h
            _ ≤ (m :: rest).length := by simp
        · right; simpa [broadcastDrain, hcl, habort] using h

/-- After at least as many ticks as there are queued samples, the queue is
empty: every queued sample is eventually drained by the polling loop. -/
lemma ticks_drain (n : ℕ) :
    ∀ s : S, s.queue.length ≤ n → ((stepA Act.tick)^[n] s).queue = [] := by
  induction n with
  | zero =>
    intro s h
    simpa using List.length_eq_zero.mp (Nat.le_zero.mp h)
  | succ n ih =>
    intro s h
    rw [Function.iterate_succ_apply]
    apply ih
    rcases List.eq_nil_or_concat s.queue with hq | _
    · have : (stepA Act.tick s).queue = [] := by
        show (broadcastDrain s.clients s.failing s.queue s.recv s.log).queue = []
        rw [hq]; rfl
      simp [this]
    · rcases drain_queue_length s.clients s.failing s.queue s.recv s.log with hlen | hnil
      · have : (stepA Act.tick s).queue.length + 1 ≤ n + 1 := le_trans hlen h
        omega
      · show (broadcastDrain s.clients s.failing s.queue s.recv s.log).queue.length ≤ n
        simp [hnil]

/-- A drain pass with no failing connected client consumes the whole queue in
FIFO order. -/
lemma drain_no_abort (cl f : Finset ℕ) (q : List ℕ) (hna : ¬(cl ∩ f).Nonempty) :
    ∀ (recv : ℕ → List Msg) (log : List ℕ),
    (broadcastDrain cl f q recv log).queue = [] ∧
      (broadcastDrain cl f q recv log).log = log ++ q := by
  induction q with
  | nil => intro recv log; exact ⟨rfl, by simp [broadcastDrain]⟩
  | cons m rest ih =>
    intro recv log
    by_cases hcl : cl = ∅
    · obtain ⟨h1, h2⟩ := ih recv (log ++ [m])
      exact ⟨by simpa [broadcastDrain, hcl] using h1,
        by simp only [broadcastDrain, if_pos hcl]; rw [h2]; simp⟩
    · obtain ⟨h1, h2⟩ := ih (sendAll m cl f recv) (log ++ [m])
      exact ⟨by simpa [broadcastDrain, hcl, hna] using h1,
        by simp only [broadcastDrain, if_neg hcl, if_neg hna]; rw [h2]; simp⟩

/-- Conservation for the fine-grained pass model: drained output followed by
the remaining queue always equals the initial queue followed by the racing
puts, whatever the interleaving. -/
lemma runPass_conserve (acts : List PassAct) :
    ∀ (q out : List ℕ),
    (runPass acts (q, out)).2 ++ (runPass acts (q, out)).1 = out ++ q ++ putsOf acts := by
  induction acts with
  | nil => intro q out; simp [runPass, putsOf]
  | cons a acts ih =>
    intro q out
    cases a with
    | drainStep =>
      cases q with
      | nil =>
        show (runPass acts ([], out)).2 ++ (runPass acts ([], out)).1 = _
        rw [ih [] out]; simp [putsOf]
      | cons m q' =>
        show (runPass acts (q', out ++ [m])).2 ++ (runPass acts (q', out ++ [m])).1 = _
        rw [ih q' (out ++ [m])]; simp [putsOf]
    | put m =>
      show (runPass acts (q ++ [m], out)).2 ++ (runPass acts (q ++ [m], out)).1 = _
      rw [ih (q ++ [m]) out]; simp [putsOf]

/-- Registering pairwise-distinct fresh connections grows the registry by one
element each. -/
lemma addAll_card (ks : List ℕ) :
    ∀ r : Finset ℕ, ks.Nodup → (∀ c ∈ ks, c ∉ r) →
    (addAll ks r).card = r.card + ks.length := by
  induction ks with
  | nil => intro r _ _; simp [addAll]
  | cons k ks ih =>
    intro r hnd hfresh
    have hk : k ∉ r := hfresh k (List.mem_cons_self k ks)
    have step : addAll (k :: ks) r = addAll ks (registry_add k r) := rfl
    rw [step, ih (registry_add k r) (List.nodup_cons.mp hnd).2 ?_]
    · rw [registry_add, Finset.card_insert_of_not_mem hk]
      simp only [List.length_cons]
      omega
    · intro c hc
      rw [registry_add, Finset.mem_insert]
      rintro (he | hr)
      · exact (List.nodup_cons.mp hnd).1 (he ▸ hc)
      · exact hfresh c (List.mem_cons_of_mem k hc) hr

/-- Membership in the registry after a batch of registrations. -/
lemma addAll_mem (ks : List ℕ) :
    ∀ (r : Finset ℕ) (x : ℕ), x ∈ addAll ks r ↔ x ∈ r ∨ x ∈ ks := by
  induction ks with
  | nil => intro r x; simp [addAll]
  | cons k ks ih =>
    intro r x
    have step : addAll (k :: ks) r = addAll ks (registry_add k r) := rfl
    rw [step, ih (registry_add k r) x, registry_add, Finset.mem_insert]
    constructor
    · rintro ((he | hr) | hk)
      · exact Or.inr (he ▸ List.mem_cons_self k ks)
      · exact Or.inl hr
      · exact Or.inr (List.mem_cons_of_mem k hk)
    · rintro (hr | hk)
      · exact Or.inl (Or.inr hr)
      · rcases List.mem_cons.mp hk with he | hk'
        · exact Or.inl (Or.inl he)
        · exact Or.inr hk'

/-- Deregistering pairwise-distinct present connections succeeds and shrinks
the registry by one element each. -/
lemma removeAll_spec (ms : List ℕ) :
    ∀ r : Finset ℕ, ms.Nodup → (∀ m ∈ ms, m ∈ r) →
    ∃ r', removeAll ms r = .ok r' ∧ r'.card + ms.length = r.card := by
  induction ms with
  | nil => intro r _ _; exact ⟨r, rfl, by simp⟩
  | cons m ms ih =>
    intro r hnd hmem
    have hm : m ∈ r := hmem m (List.mem_cons_self m ms)
    have hsub : ∀ x ∈ ms, x ∈ r.erase m := by
      intro x hx
      exact Finset.mem_erase.mpr
        ⟨fun he => (List.nodup_cons.mp hnd).1 (he ▸ hx), hmem x (List.mem_cons_of_mem m hx)⟩
    obtain ⟨r', h1, h2⟩ := ih (r.erase m) (List.nodup_cons.mp hnd).2 hsub
    refine ⟨r', ?_, ?_⟩
    · simpa only [removeAll, registry_remove, if_pos hm] using h1
    · have := Finset.card_erase_add_one hm
      simp only [List.length_cons]
      omega

/-! ## Claim theorems -/

/-- A concrete state for exercising a broadcast pass with a failing client:
one sample queued, clients `0` and `1` connected and past their handshake,
client `1`'s sends raise. -/
def sC1 : S :=
  { queue := [5], clients := {0, 1}, failing := {1}, pc := fun _ => 2,
    recv := fun _ => [Msg.welcome], log := [], enq := [5] }

/-- C1 (counterexample): in the broadcast pass over `sC1`, client `1`'s send
fails (client `0` receives sample `5`, client `1` receives nothing), yet the
broadcaster leaves `connected_clients` unchanged — client `1` is still
registered.  The claim that the broadcaster "removes that handle from
ClientRegistry" is false: only the connection handler's `finally` block ever
removes a handle. -/
theorem c1_failed_send_handle_not_removed :
    (stepA Act.tick sC1).recv 0 = [Msg.welcome, Msg.sample 5] ∧
    (stepA Act.tick sC1).recv 1 = [Msg.welcome] ∧
    1 ∈ sC1.failing ∧
    1 ∈ (stepA Act.tick sC1).clients ∧
    (stepA Act.tick sC1).clients = sC1.clients := by
  decide

/-- C1 (amended): when a send fails during a broadcast pass, the broadcaster
does not touch `ClientRegistry` at all; every other (non-failing) connected
handle still receives the current sample, because `asyncio.gather` schedules
all the sends before the exception propagates; and the exception only ends
the current tick's drain — the remaining queued samples are left for the
next tick of the still-running loop. -/
theorem c1_amended_broadcast_failure_isolation (s : S) (m : ℕ) (rest : List ℕ)
    (hq : s.queue = m :: rest) (hcl : s.clients ≠ ∅)
    (hab : (s.clients ∩ s.failing).Nonempty) :
    (stepA Act.tick s).clients = s.clients ∧
    (∀ c ∈ s.clients, c ∉ s.failing →
      (stepA Act.tick s).recv c = s.recv c ++ [Msg.sample m]) ∧
    (stepA Act.tick s).queue = rest := by
  refine ⟨rfl, ?_, ?_⟩
  · intro c hc hf
    show (broadcastDrain s.clients s.failing s.queue s.recv s.log).recv c = _
    rw [hq]
    simp [broadcastDrain, hcl, hab, sendAll, hc, hf]
  · show (broadcastDrain s.clients s.failing s.queue s.recv s.log).queue = rest
    rw [hq]
    simp [broadcastDrain, hcl, hab]

/-- Witness for the amended C1 at the concrete state `sC1`. -/
theorem c1_amended_witness :
    sC1.queue = 5 :: [] ∧ sC1.clients ≠ ∅ ∧ (sC1.clients ∩ sC1.failing).Nonempty ∧
    ((stepA Act.tick sC1).clients = sC1.clients ∧
     (∀ c ∈ sC1.clients, c ∉ sC1.failing →
       (stepA Act.tick sC1).recv c = sC1.recv c ++ [Msg.sample 5]) ∧
     (stepA Act.tick sC1).queue = []) :=
  ⟨rfl, by decide, by decide,
   c1_amended_broadcast_failure_isolation sC1 5 [] rfl (by decide) (by decide)⟩

/-- C2 (counterexample): a schedule in which client `0` is accepted
(`connected_clients.add`, source line 44), a sample is enqueued, a broadcast
tick runs, and only then the handler's welcome send (line 48) completes.  The
client's first received message is the broadcast sample, not the
connected-status record — so the welcome is not sent before registration and
the first message is not guaranteed to be the welcome. -/
theorem c2_sample_can_precede_welcome :
    (run [Act.register 0, Act.enqueue 7, Act.tick, Act.welcome 0] (s0 ∅)).recv 0 =
      [Msg.sample 7, Msg.welcome] := by
  decide

/-- C2 (amended): for every accepted connection the handler registers the
websocket in `ClientRegistry` first (line 44) and sends the welcome message
only afterwards (line 48): before registration the welcome step cannot occur
at all (it is a no-op), and the registration step itself makes the handle
visible to the broadcaster while no message has yet been sent to anyone. -/
theorem c2_amended_register_precedes_welcome (s : S) (c : ℕ) (h : s.pc c = 0) :
    stepA (Act.welcome c) s = s ∧
    c ∈ (stepA (Act.register c) s).clients ∧
    (stepA (Act.register c) s).recv = s.recv ∧
    (stepA (Act.register c) s).pc c = 1 := by
  refine ⟨?_, ?_, ?_, ?_⟩
  · simp [stepA, h]
  · simp [stepA, h]
  · simp [stepA, h]
  · simp [stepA, h]

/-- Witness for the amended C2 at the fresh initial state. -/
theorem c2_amended_witness :
    (s0 ∅).pc 0 = 0 ∧
    (stepA (Act.welcome 0) (s0 ∅) = s0 ∅ ∧
     0 ∈ (stepA (Act.register 0) (s0 ∅)).clients ∧
     (stepA (Act.register 0) (s0 ∅)).recv = (s0 ∅).recv ∧
     (stepA (Act.register 0) (s0 ∅)).pc 0 = 1) :=
  ⟨rfl, c2_amended_register_precedes_welcome (s0 ∅) 0 rfl⟩

/-- C3 (counterexample): removing an identifier from an empty registry raises
`KeyError` — the source uses Python's `set.remove` (line 52), which errors on
an absent element, so removal is not idempotent as claimed. -/
theorem c3_remove_absent_raises :
    registry_remove 0 (∅ : Finset ℕ) = .error .keyError := rfl

/-- C3 (amended): `set.remove` removes a present identifier, but raises
`KeyError` on an absent one; in particular two deregistration paths removing
the same handle would raise on the second removal rather than succeed.  (The
code avoids this only because the handler's `finally` block is the sole
removal site and runs once per connection.) -/
theorem c3_amended_remove_not_idempotent (c : ℕ) (r : Finset ℕ) :
    (c ∈ r → registry_remove c r = .ok (r.erase c)) ∧
    (c ∉ r → registry_remove c r = .error .keyError) ∧
    (c ∈ r → removeAll [c, c] r = .error .keyError) := by
  refine ⟨fun h => ?_, fun h => ?_, fun h => ?_⟩
  · simp [registry_remove, h]
  · simp [registry_remove, h]
  · simp [removeAll, registry_remove, h, Finset.not_mem_erase]

/-- Witness for the amended C3: double removal of handle `0` from `{0}`
raises on the second removal. -/
theorem c3_amended_witness :
    0 ∈ ({0} : Finset ℕ) ∧ removeAll [0, 0] ({0} : Finset ℕ) = .error .keyError :=
  ⟨by decide, (c3_amended_remove_not_idempotent 0 {0}).2.2 (by decide)⟩

/-- C4 (confirmed): `queue_message` is a total function — `queue.Queue.put`
on an unbounded queue cannot fail or block — and for every sample and every
queue state it appends the sample at the tail of the queue. -/
theorem c4_enqueue_appends_tail (m : ℕ) (s : S) :
    (queue_message m s).queue = s.queue ++ [m] := rfl

/-- C5 (confirmed): over any interleaving of the broadcaster's per-message
`get_nowait` steps with racing producer `put`s, the drained output followed
by the remaining queue is exactly the initial queue followed by the racing
puts in order — so the drain removes samples in FIFO order, a racing enqueue
is either included in this drain or left for the next, and no sample is ever
duplicated or dropped; when the pass runs until the queue is empty it has
returned all queued samples.  At tick granularity, a pass not interrupted by
a send failure leaves the queue empty and appends the entire former queue
contents to the drain log in FIFO order. -/
theorem c5_drain_fifo_no_loss :
    (∀ (acts : List PassAct) (q : List ℕ),
      (runPass acts (q, [])).2 ++ (runPass acts (q, [])).1 = q ++ putsOf acts) ∧
    (∀ (acts : List PassAct) (q : List ℕ), (runPass acts (q, [])).1 = [] →
      (runPass acts (q, [])).2 = q ++ putsOf acts) ∧
    (∀ s : S, ¬(s.clients ∩ s.failing).Nonempty →
      (stepA Act.tick s).queue = [] ∧ (stepA Act.tick s).log = s.log ++ s.queue) := by
  refine ⟨?_, ?_, ?_⟩
  · intro acts q
    simpa using runPass_conserve acts q []
  · intro acts q h
    have hc := runPass_conserve acts q []
    rw [h] at hc
    simpa using hc
  · intro s h
    exact drain_no_abort s.clients s.failing s.queue h s.recv s.log

/-- Witness for C5: a drain racing one `put` still accounts for every sample
exactly once. -/
theorem c5_witness :
    (runPass [PassAct.drainStep, PassAct.put 9, PassAct.drainStep, PassAct.drainStep]
      ([1, 2], [])).1 = [] ∧
    (runPass [PassAct.drainStep, PassAct.put 9, PassAct.drainStep, PassAct.drainStep]
      ([1, 2], [])).2 =
      [1, 2] ++ putsOf [PassAct.drainStep, PassAct.put 9, PassAct.drainStep, PassAct.drainStep] :=
  ⟨by decide,
   c5_drain_fifo_no_loss.2.1
     [PassAct.drainStep, PassAct.put 9, PassAct.drainStep, PassAct.drainStep] [1, 2] (by decide)⟩

/-- C6 (confirmed): over every schedule starting from a state with client `c`
connected, (i) the sample stream received by any client is a sublist of the
enqueue order — so whenever two samples A (enqueued first) and B are both
received, A is received before B, with no duplication — and (ii) if `c` never
fails and never disconnects and the schedule ends with the queue drained,
then `c` has received, after its handshake, exactly the enqueued samples in
enqueue order. -/
theorem c6_fifo_delivery (acts : List Act) (f : Finset ℕ) (c : ℕ) (hf : c ∉ f) :
    (∀ c' : ℕ, List.Sublist (samplesOf ((run acts (sInit f c)).recv c'))
      ((run acts (sInit f c)).enq)) ∧
    (Act.close c ∉ acts → (run acts (sInit f c)).queue = [] →
      samplesOf ((run acts (sInit f c)).recv c) = (run acts (sInit f c)).enq) := by
  have hinv : (run acts (sInit f c)).enq =
      (run acts (sInit f c)).log ++ (run acts (sInit f c)).queue :=
    run_enq_inv acts (sInit f c) rfl
  constructor
  · intro c'
    obtain ⟨dr, dl, h1, h2, h3⟩ := run_recv_log acts (sInit f c) c'
    rw [h1, samplesOf_append]
    have hs : samplesOf ((sInit f c).recv c') = [] := by
      show samplesOf (if c' = c then [Msg.welcome] else []) = []
      split <;> simp [samplesOf]
    rw [hs, List.nil_append, hinv, h2]
    have hlog : (sInit f c).log = [] := rfl
    rw [hlog, List.nil_append]
    exact h3.trans (List.sublist_append_left dl _)
  · intro hcl hqe
    have hcmem : c ∈ (sInit f c).clients := by simp [sInit]
    obtain ⟨dr, dl, h1, h2, h3⟩ := run_recv_log_eq acts (sInit f c) c hcmem hf hcl
    rw [h1, samplesOf_append, hinv, hqe, h2]
    have hrecv : (sInit f c).recv c = [Msg.welcome] := by simp [sInit]
    have hlog : (sInit f c).log = [] := rfl
    rw [hrecv, hlog]
    simp [samplesOf, h3]

/-- Witness for C6: from a state with client `0` connected, enqueueing
samples `1` then `2` and running one broadcast tick delivers exactly `[1, 2]`
to the client. -/
theorem c6_witness :
    (0 : ℕ) ∉ (∅ : Finset ℕ) ∧
    Act.close 0 ∉ [Act.enqueue 1, Act.enqueue 2, Act.tick] ∧
    (run [Act.enqueue 1, Act.enqueue 2, Act.tick] (sInit ∅ 0)).queue = [] ∧
    samplesOf ((run [Act.enqueue 1, Act.enqueue 2, Act.tick] (sInit ∅ 0)).recv 0) =
      (run [Act.enqueue 1, Act.enqueue 2, Act.tick] (sInit ∅ 0)).enq :=
  ⟨by decide, by decide, by decide,
   (c6_fifo_delivery [Act.enqueue 1, Act.enqueue 2, Act.tick] ∅ 0 (by decide)).2
     (by decide) (by decide)⟩

/-- C7 (confirmed): a client that has received no samples yet (in particular,
one that connects now) can only ever receive samples drained after this
moment: its received sample stream is a sublist of the part of the drain log
added after the current point, so a sample drained before it connected is
never replayed to it. -/
theorem c7_no_replay (acts : List Act) (s : S) (c : ℕ)
    (h0 : samplesOf (s.recv c) = []) :
    List.Sublist (samplesOf ((run acts s).recv c))
      (((run acts s).log).drop s.log.length) := by
  obtain ⟨dr, dl, h1, h2, h3⟩ := run_recv_log acts s c
  rw [h1, samplesOf_append, h0, List.nil_append, h2, List.drop_left]
  exact h3

/-- A concrete state for the no-replay scenario: sample `3` was already
drained (it is in the log) before client `1` connects. -/
def sC7 : S :=
  { queue := [], clients := {0}, failing := ∅, pc := fun x => if x = 0 then 2 else 0,
    recv := fun _ => [], log := [3], enq := [3] }

/-- Witness for C7: client `1` connects after sample `3` was drained; it
receives only the later sample `4`, never the already-drained `3`. -/
theorem c7_witness :
    samplesOf (sC7.recv 1) = [] ∧
    List.Sublist
      (samplesOf ((run [Act.register 1, Act.welcome 1, Act.enqueue 4, Act.tick] sC7).recv 1))
      (((run [Act.register 1, Act.welcome 1, Act.enqueue 4, Act.tick] sC7).log).drop
        sC7.log.length) :=
  ⟨rfl, c7_no_replay [Act.register 1, Act.welcome 1, Act.enqueue 4, Act.tick] sC7 1 rfl⟩

/-- C8 (confirmed): `len(connected_clients)` is by definition the cardinality
of the registry; after K connects of distinct fresh connections
(`set.add`, one handle each) followed by M ≤ K disconnects of distinct
connected handles (`set.remove`, one handle each, all succeeding), the count
is K − M; and a broadcast tick never changes the registry, so an active
broadcast pass cannot perturb the count. -/
theorem c8_connect_disconnect_count (ks ms : List ℕ) (hks : ks.Nodup) (hms : ms.Nodup)
    (hsub : ∀ m ∈ ms, m ∈ ks) :
    (∃ r, removeAll ms (addAll ks ∅) = .ok r ∧
      connectedClientCount r = ks.length - ms.length) ∧
    (∀ t : S, (stepA Act.tick t).clients = t.clients) := by
  refine ⟨?_, fun t => rfl⟩
  have hcard : (addAll ks ∅).card = ks.length := by
    have := addAll_card ks ∅ hks (fun c _ => Finset.not_mem_empty c)
    simpa using this
  have hmem : ∀ m ∈ ms, m ∈ addAll ks ∅ := fun m hm =>
    (addAll_mem ks ∅ m).mpr (Or.inr (hsub m hm))
  obtain ⟨r, h1, h2⟩ := removeAll_spec ms (addAll ks ∅) hms hmem
  refine ⟨r, h1, ?_⟩
  rw [connectedClientCount]
  omega

/-- Witness for C8: three connects then one disconnect leave a count of 2. -/
theorem c8_witness :
    ([0, 1, 2] : List ℕ).Nodup ∧ ([2] : List ℕ).Nodup ∧
    (∀ m ∈ ([2] : List ℕ), m ∈ ([0, 1, 2] : List ℕ)) ∧
    ((∃ r, removeAll [2] (addAll [0, 1, 2] ∅) = .ok r ∧
        connectedClientCount r = ([0, 1, 2] : List ℕ).length - ([2] : List ℕ).length) ∧
     (∀ t : S, (stepA Act.tick t).clients = t.clients)) :=
  ⟨by decide, by decide, by decide,
   c8_connect_disconnect_count [0, 1, 2] [2] (by decide) (by decide) (by decide)⟩

/-- C9 (confirmed): `extract_arm_data` always carries the timestamp; each
arm field is non-null exactly when world landmarks are present and both that
arm's shoulder and wrist visibilities exceed `0.5`; and when non-null it
holds exactly the shoulder and wrist landmark values (x, y, z,
visibility). -/
theorem c9_extract_arm_data_spec (ts : ℚ) (results : PoseResults) :
    (extract_arm_data ts results).timestamp = ts ∧
    ((extract_arm_data ts results).left_arm ≠ none ↔
      ∃ lms, results.pose_world_landmarks = some lms ∧
        (lms LEFT_SHOULDER).visibility > 1/2 ∧ (lms LEFT_WRIST).visibility > 1/2) ∧
    ((extract_arm_data ts results).right_arm ≠ none ↔
      ∃ lms, results.pose_world_landmarks = some lms ∧
        (lms RIGHT_SHOULDER).visibility > 1/2 ∧ (lms RIGHT_WRIST).visibility > 1/2) ∧
    (∀ lms, results.pose_world_landmarks = some lms →
      ((lms LEFT_SHOULDER).visibility > 1/2 → (lms LEFT_WRIST).visibility > 1/2 →
        (extract_arm_data ts results).left_arm =
          some ⟨lms LEFT_SHOULDER, lms LEFT_WRIST⟩) ∧
      ((lms RIGHT_SHOULDER).visibility > 1/2 → (lms RIGHT_WRIST).visibility > 1/2 →
        (extract_arm_data ts results).right_arm =
          some ⟨lms RIGHT_SHOULDER, lms RIGHT_WRIST⟩)) := by
  obtain ⟨o⟩ := results
  cases o with
  | none =>
    refine ⟨rfl, ?_, ?_, ?_⟩
    · simp [extract_arm_data]
    · simp [extract_arm_data]
    · intro lms h
      exact absurd h (by simp)
  | some lms =>
    refine ⟨rfl, ?_, ?_, ?_⟩
    · constructor
      · intro h
        by_cases hp : (lms LEFT_SHOULDER).visibility > 1/2 ∧ (lms LEFT_WRIST).visibility > 1/2
        · exact ⟨lms, rfl, hp.1, hp.2⟩
        · exfalso
          apply h
          show (if (lms LEFT_SHOULDER).visibility > 1/2 ∧ (lms LEFT_WRIST).visibility > 1/2
            then some (⟨lms LEFT_SHOULDER, lms LEFT_WRIST⟩ : ArmJoints) else none) = none
          rw [if_neg hp]
      · rintro ⟨lms', he, h1, h2⟩
        cases Option.some.inj he
        show (if (lms LEFT_SHOULDER).visibility > 1/2 ∧ (lms LEFT_WRIST).visibility > 1/2
          then some (⟨lms LEFT_SHOULDER, lms LEFT_WRIST⟩ : ArmJoints) else none) ≠ none
        rw [if_pos ⟨h1, h2⟩]
        exact Option.some_ne_none _
    · constructor
      · intro h
        by_cases hp : (lms RIGHT_SHOULDER).visibility > 1/2 ∧ (lms RIGHT_WRIST).visibility > 1/2
        · exact ⟨lms, rfl, hp.1, hp.2⟩
        · exfalso
          apply h
          show (if (lms RIGHT_SHOULDER).visibility > 1/2 ∧ (lms RIGHT_WRIST).visibility > 1/2
            then some (⟨lms RIGHT_SHOULDER, lms RIGHT_WRIST⟩ : ArmJoints) else none) = none
          rw [if_neg hp]
      · rintro ⟨lms', he, h1, h2⟩
        cases Option.some.inj he
        show (if (lms RIGHT_SHOULDER).visibility > 1/2 ∧ (lms RIGHT_WRIST).visibility > 1/2
          then some (⟨lms RIGHT_SHOULDER, lms RIGHT_WRIST⟩ : ArmJoints) else none) ≠ none
        rw [if_pos ⟨h1, h2⟩]
        exact Option.some_ne_none _
    · intro lms' he
      cases Option.some.inj he
      constructor
      · intro h1 h2
        show (if (lms LEFT_SHOULDER).visibility > 1/2 ∧ (lms LEFT_WRIST).visibility > 1/2
          then some (⟨lms LEFT_SHOULDER, lms LEFT_WRIST⟩ : ArmJoints) else none) =
          some ⟨lms LEFT_SHOULDER, lms LEFT_WRIST⟩
        rw [if_pos ⟨h1, h2⟩]
      · intro h1 h2
        show (if (lms RIGHT_SHOULDER).visibility > 1/2 ∧ (lms RIGHT_WRIST).visibility > 1/2
          then some (⟨lms RIGHT_SHOULDER, lms RIGHT_WRIST⟩ : ArmJoints) else none) =
          some ⟨lms RIGHT_SHOULDER, lms RIGHT_WRIST⟩
        rw [if_pos ⟨h1, h2⟩]

/-- Concrete landmarks matching the spec's example record: right shoulder
visibility 0.9, right wrist visibility 0.95, all other landmarks below the
threshold. -/
def demoLandmarks : ℕ → Landmark := fun i =>
  if i = RIGHT_SHOULDER then ⟨0, 0, 0, 9/10⟩
  else if i = RIGHT_WRIST then ⟨1/10, 1/5, 0, 19/20⟩
  else ⟨0, 0, 0, 0⟩

/-- A concrete pose result with world landmarks present. -/
def demoResults : PoseResults := ⟨some demoLandmarks⟩

/-- Witness for C9: with the demo landmarks the right-arm record is filled in
with exactly the shoulder and wrist landmark values. -/
theorem c9_witness :
    (demoLandmarks RIGHT_SHOULDER).visibility > 1/2 ∧
    (demoLandmarks RIGHT_WRIST).visibility > 1/2 ∧
    (extract_arm_data 100 demoResults).right_arm =
      some ⟨demoLandmarks RIGHT_SHOULDER, demoLandmarks RIGHT_WRIST⟩ := by
  have h1 : (demoLandmarks RIGHT_SHOULDER).visibility > 1/2 := by
    norm_num [demoLandmarks, RIGHT_SHOULDER, RIGHT_WRIST]
  have h2 : (demoLandmarks RIGHT_WRIST).visibility > 1/2 := by
    norm_num [demoLandmarks, RIGHT_SHOULDER, RIGHT_WRIST]
  exact ⟨h1, h2,
    ((c9_extract_arm_data_spec 100 demoResults).2.2.2 demoLandmarks rfl).2 h1 h2⟩

/-- C10 (confirmed): when a send failure aborts a broadcast tick mid-drain,
only the head sample (already removed by `get_nowait` and in flight) has been
consumed: the rest of the queue is untouched, and after enough subsequent
ticks of the still-running loop the remaining samples are all drained — a
broadcast error never discards queued-but-unsent samples. -/
theorem c10_abort_keeps_queued_samples (s : S) (m : ℕ) (rest : List ℕ) (n : ℕ)
    (hq : s.queue = m :: rest) (hcl : s.clients ≠ ∅)
    (hab : (s.clients ∩ s.failing).Nonempty) (hn : rest.length ≤ n) :
    (stepA Act.tick s).queue = rest ∧
    (stepA Act.tick s).log = s.log ++ [m] ∧
    ((stepA Act.tick)^[n] (stepA Act.tick s)).queue = [] := by
  have h1 : (stepA Act.tick s).queue = rest := by
    show (broadcastDrain s.clients s.failing s.queue s.recv s.log).queue = rest
    rw [hq]
    simp [broadcastDrain, hcl, hab]
  refine ⟨h1, ?_, ?_⟩
  · show (broadcastDrain s.clients s.failing s.queue s.recv s.log).log = s.log ++ [m]
    rw [hq]
    simp [broadcastDrain, hcl, hab]
  · apply ticks_drain
    rw [h1]
    exact hn

/-- A concrete state for the aborted-tick scenario: two samples queued,
client `1`'s sends raise. -/
def sC10 : S :=
  { queue := [5, 6], clients := {0, 1}, failing := {1}, pc := fun _ => 2,
    recv := fun _ => [Msg.welcome], log := [], enq := [5, 6] }

/-- Witness for C10: the aborted tick consumes only sample `5`; sample `6`
stays queued and one more tick drains it. -/
theorem c10_witness :
    sC10.queue = 5 :: [6] ∧ sC10.clients ≠ ∅ ∧
    (sC10.clients ∩ sC10.failing).Nonempty ∧ ([6] : List ℕ).length ≤ 1 ∧
    ((stepA Act.tick sC10).queue = [6] ∧
     (stepA Act.tick sC10).log = sC10.log ++ [5] ∧
     ((stepA Act.tick)^[1] (stepA Act.tick sC10)).queue = []) :=
  ⟨rfl, by decide, by decide, by decide,
   c10_abort_keeps_queued_samples sC10 5 [6] 1 rfl (by decide) (by decide) (by decide)⟩

end ArmTracking
